import Mathlib

/-!
Shallow embedding of the Merton jump-diffusion pricing core
(`merton.py`, `strategies.py`, `exceptions.py`, `descriptors.py`).

Real arithmetic is modelled over `ℚ`; the transcendental functions the
source calls (`math.exp`, `math.sqrt`, `math.log`, `math.erf`, `math.pi`)
are abstracted into a `MathFns` bundle passed explicitly, so that every
definition stays computable and theorems can assume exactly the analytic
facts they need (positivity or strict monotonicity of `exp`).
Random draws (`random.gauss`, `np.random.poisson`, `np.random.normal`)
are modelled as an explicit stream of `StepDraws`, one record per loop
iteration.  Python exceptions are modelled by the `PyError` sum type:
the three domain exception classes of `exceptions.py` plus the built-in
`KeyError` raised by a failing `dict` lookup.
-/

/-- Exceptions observable from the embedded code: the three domain
exception classes defined in `exceptions.py`, and Python's built-in
`KeyError` raised by a plain `dict[...]` lookup miss. -/
inductive PyError where
  | pricingError (msg : String)
  | negativeValueError (msg : String)
  | invalidTypeError (msg : String)
  | keyError (key : String)
deriving DecidableEq, Repr

/-- `True` exactly on the typed domain exceptions declared in
`exceptions.py`; `KeyError` is an untyped built-in failure. -/
def PyError.isDomainError : PyError → Bool
  | .pricingError _ => true
  | .negativeValueError _ => true
  | .invalidTypeError _ => true
  | .keyError _ => false

/-- The transcendental functions used by the source, passed explicitly. -/
structure MathFns where
  exp : ℚ → ℚ
  sqrt : ℚ → ℚ
  log : ℚ → ℚ
  erf : ℚ → ℚ
  pi : ℚ

instance {ε α : Type} [DecidableEq ε] [DecidableEq α] : DecidableEq (Except ε α)
  | .error e, .error f =>
      if h : e = f then .isTrue (by rw [h]) else .isFalse (fun hc => h (Except.error.inj hc))
  | .error _, .ok _ => .isFalse (fun hc => Except.noConfusion hc)
  | .ok _, .error _ => .isFalse (fun hc => Except.noConfusion hc)
  | .ok a, .ok b =>
      if h : a = b then .isTrue (by rw [h]) else .isFalse (fun hc => h (Except.ok.inj hc))

/-- `JumpParameters` dataclass from `merton.py` (no field validation). -/
structure JumpParameters where
  intensity : ℚ
  mean_jump : ℚ
  jump_vol : ℚ
deriving DecidableEq, Repr

/-- The state of a `MertonJumpModel` after a successful `__init__`:
the descriptor-validated fields plus the two cached derived quantities. -/
structure MertonJumpModel where
  spot : ℚ
  rate : ℚ
  volatility : ℚ
  jump_params : JumpParameters
  steps : ℕ
  delta_t : ℚ
  drift_correction : ℚ
deriving DecidableEq, Repr

/-- `MertonJumpModel.__init__`: the explicit `maturity <= 0` check, then
the descriptor-mediated assignments in source order (`spot`, `rate`,
`volatility` through `NonNegativeFloat`, `jump_params` unchecked,
`steps` through `PositiveInt`, `delta_t` through `NonNegativeFloat`),
finally the cached `drift_correction`.  `steps` arrives as a Python
`int`, modelled as `ℤ`. -/
def MertonJumpModel.init (F : MathFns) (spot rate volatility : ℚ)
    (jump_params : JumpParameters) (maturity : ℚ) (steps : ℤ) :
    Except PyError MertonJumpModel :=
  if maturity ≤ 0 then .error (.pricingError "Maturity must be positive")
  else if spot < 0 then .error (.negativeValueError "spot must be non-negative")
  else if rate < 0 then .error (.negativeValueError "rate must be non-negative")
  else if volatility < 0 then .error (.negativeValueError "volatility must be non-negative")
  else if steps ≤ 0 then .error (.negativeValueError "steps must be positive")
  else if maturity / (steps : ℚ) < 0 then .error (.negativeValueError "delta_t must be non-negative")
  else .ok
    { spot := spot
      rate := rate
      volatility := volatility
      jump_params := jump_params
      steps := steps.toNat
      delta_t := maturity / (steps : ℚ)
      drift_correction :=
        jump_params.intensity *
          (F.exp (jump_params.mean_jump + 1/2 * jump_params.jump_vol ^ 2) - 1) }

/-- The three random draws one iteration of the path loop can consume:
the standard-normal `z`, the Poisson jump count, and the sum of the
`jump_count` normal jump sizes (consulted only when the count is positive). -/
structure StepDraws where
  z : ℚ
  jumpCount : ℕ
  jumpSizesSum : ℚ
deriving DecidableEq, Repr

/-- One iteration of the `simulate_terminal_price` loop, as a transition
on the full state `(self, price)`: reads the model fields, multiplies the
local working price by the exponential factor, writes no field. -/
def stepOnce (F : MathFns) (d : StepDraws) (s : MertonJumpModel × ℚ) :
    MertonJumpModel × ℚ :=
  let m := s.1
  let jump_term := if 0 < d.jumpCount then d.jumpSizesSum else 0
  let drift := (m.rate - m.drift_correction - 1/2 * m.volatility ^ 2) * m.delta_t
  let diffusion := m.volatility * F.sqrt m.delta_t * d.z
  (m, s.2 * F.exp (drift + diffusion + jump_term))

/-- The first `n` iterations of the path loop, iteration `i` consuming
the draw record `pd i`. -/
def runSteps (F : MathFns) (pd : ℕ → StepDraws) :
    ℕ → MertonJumpModel × ℚ → MertonJumpModel × ℚ
  | 0, s => s
  | n + 1, s => stepOnce F (pd n) (runSteps F pd n s)

/-- `simulate_terminal_price`: run the loop `steps` times starting from
`price = self.spot` and return the final working price. -/
def simulate_terminal_price (F : MathFns) (m : MertonJumpModel)
    (pd : ℕ → StepDraws) : ℚ :=
  (runSteps F pd m.steps (m, m.spot)).2

/-- The full object state `(self, price)` after running the whole loop. -/
def simulate_terminal_price_state (F : MathFns) (m : MertonJumpModel)
    (pd : ℕ → StepDraws) : MertonJumpModel × ℚ :=
  runSteps F pd m.steps (m, m.spot)

/-- A trivial function bundle: every transcendental call returns a fixed
value.  Usable wherever a theorem needs no analytic facts about them. -/
def mathOne : MathFns := ⟨fun _ => 1, fun _ => 0, fun _ => 0, fun _ => 0, 0⟩

/-- The all-zero draw stream: `z = 0`, no jumps. -/
def zeroDraws : ℕ → StepDraws := fun _ => ⟨0, 0, 0⟩

example :
    simulate_terminal_price mathOne
      { spot := 100, rate := 0, volatility := 0,
        jump_params := ⟨0, 0, 0⟩, steps := 3, delta_t := 1/3,
        drift_correction := 0 }
      zeroDraws = 100 := by
  simp [simulate_terminal_price, runSteps, stepOnce, mathOne]

example :
    MertonJumpModel.init mathOne 100 0 0 ⟨0, 0, 0⟩ 1 (-2) =
    .error (.negativeValueError "steps must be positive") := by
  norm_num [MertonJumpModel.init]

/-- Generator state for the two `merton.py` generators: how many elements
have been yielded so far, and the requested total.  A Python generator
object is exactly this loop counter captured by the suspended frame. -/
structure GenState where
  idx : ℕ
  total : ℕ
deriving DecidableEq, Repr

/-- `terminal_price_stream`: yield `simulate_terminal_price()` once per
loop iteration of `for _ in range(paths)`; pull number `i` consumes the
draw block `pd i`.  Returns `none` when the generator is exhausted. -/
def terminal_price_stream_next (F : MathFns) (m : MertonJumpModel)
    (pd : ℕ → ℕ → StepDraws) (s : GenState) : Option (ℚ × GenState) :=
  if s.idx < s.total then
    some (simulate_terminal_price F m (pd s.idx), ⟨s.idx + 1, s.total⟩)
  else none

/-- `payoff_stream`: map each terminal price pulled from the inner
`terminal_price_stream` through `max(terminal - strike, 0.0)`. -/
def payoff_stream_next (F : MathFns) (m : MertonJumpModel)
    (pd : ℕ → ℕ → StepDraws) (strike : ℚ) (s : GenState) :
    Option (ℚ × GenState) :=
  match terminal_price_stream_next F m pd s with
  | some (terminal, s2) => some (max (terminal - strike) 0, s2)
  | none => none

/-- Pull from a generator up to `fuel` times, stopping early at the first
`none`; returns the pulled elements in order and the final state. -/
def drain (nextFn : GenState → Option (ℚ × GenState)) :
    ℕ → GenState → List ℚ × GenState
  | 0, s => ([], s)
  | fuel + 1, s =>
    match nextFn s with
    | none => ([], s)
    | some (x, s2) =>
      let rest := drain nextFn fuel s2
      (x :: rest.1, rest.2)

/-- `price_paths`: drain the payoff generator completely (the `for` loop
runs it to exhaustion, so `fuel = paths` suffices), accumulate
`total` and `count`, and return the discounted average with the
`max(count, 1)` guard of the source. -/
def price_paths (F : MathFns) (m : MertonJumpModel) (paths : ℕ)
    (strike : ℚ) (pd : ℕ → ℕ → StepDraws) : ℚ :=
  let payoffs := (drain (payoff_stream_next F m pd strike) paths ⟨0, paths⟩).1
  let tc := payoffs.foldl (fun acc payoff => (acc.1 + payoff, acc.2 + 1)) ((0 : ℚ), (0 : ℕ))
  F.exp (-(m.rate) * (m.steps : ℚ) * m.delta_t) * tc.1 / (max tc.2 1 : ℕ)

/-- The option attributes `black_scholes_strategy` and
`jump_diffusion_mc_strategy` read from a `BaseOption`.  `dividend` is
read with `getattr(option, "dividend", 0.0)`, so it may be absent. -/
structure OptionData where
  spot : ℚ
  strike : ℚ
  maturity : ℚ
  rate : ℚ
  volatility : ℚ
  dividend : Option ℚ
deriving DecidableEq, Repr

/-- `StrategyResult` dataclass: a price and a greeks `dict`, the latter
modelled as the association list written by the source's dict literal. -/
structure StrategyResult where
  price : ℚ
  greeks : List (String × ℚ)
deriving DecidableEq, Repr

/-- `_normal_cdf(x) = 0.5 * (1 + erf(x / sqrt(2)))`. -/
def normal_cdf (F : MathFns) (x : ℚ) : ℚ :=
  1/2 * (1 + F.erf (x / F.sqrt 2))

/-- `black_scholes_strategy` from `strategies.py`, translated clause by
clause; the degenerate branch (`maturity <= 0 or vol <= 0`) returns the
intrinsic value and a greeks dict holding only `delta`. -/
def black_scholes_strategy (F : MathFns) (o : OptionData) : StrategyResult :=
  let maturity := o.maturity
  let vol := o.volatility
  let strike := o.strike
  let spot := o.spot
  let rate := o.rate
  let dividend := o.dividend.getD 0
  if maturity ≤ 0 ∨ vol ≤ 0 then
    { price := max (spot - strike) 0
      greeks := [("delta", if strike < spot then 1 else 0)] }
  else
    let d1 := (F.log (spot / strike) + (rate - dividend + 1/2 * vol * vol) * maturity) /
      (vol * F.sqrt maturity)
    let d2 := d1 - vol * F.sqrt maturity
    let nd1 := normal_cdf F d1
    let nd2 := normal_cdf F d2
    let discounted_strike := strike * F.exp (-(rate) * maturity)
    let forward := spot * F.exp (-(dividend) * maturity)
    let price := forward * nd1 - discounted_strike * nd2
    let delta := F.exp (-(dividend) * maturity) * nd1
    let gamma := F.exp (-(dividend) * maturity) * F.exp (-(1/2) * d1 * d1) /
      (spot * vol * F.sqrt (2 * F.pi * maturity))
    let vega := forward * F.sqrt maturity * F.exp (-(1/2) * d1 * d1) / F.sqrt (2 * F.pi)
    let theta := -(forward) * F.exp (-(1/2) * d1 * d1) * vol / (2 * F.sqrt (2 * F.pi * maturity)) -
      rate * discounted_strike * nd2 + dividend * forward * nd1
    let rho := maturity * discounted_strike * nd2
    { price := price
      greeks := [("delta", delta), ("gamma", gamma), ("vega", vega),
                 ("theta", theta), ("rho", rho)] }

/-- Python `int()` applied to a rational: truncation toward zero. -/
def pyInt (q : ℚ) : ℤ := if q < 0 then ⌈q⌉ else ⌊q⌋

/-- `jump_diffusion_mc_strategy`: build the hard-coded `JumpParameters`,
take `steps = max(10, int(maturity * 12))`, construct the model (which
may raise), price 200 paths and return zero for all five Greeks. -/
def jump_diffusion_mc_strategy (F : MathFns) (o : OptionData)
    (pd : ℕ → ℕ → StepDraws) : Except PyError StrategyResult :=
  let jump_params : JumpParameters := ⟨3/4, -(3/5), 1/4⟩
  let steps : ℤ := max 10 (pyInt (o.maturity * 12))
  match MertonJumpModel.init F o.spot o.rate o.volatility jump_params o.maturity steps with
  | .error e => .error e
  | .ok model =>
    let paths : ℕ := 200
    let discounted_payoff := price_paths F model paths o.strike pd
    .ok { price := discounted_payoff
          greeks := [("delta", 0), ("gamma", 0), ("vega", 0), ("theta", 0), ("rho", 0)] }

/-- The six pricing functions registered at the bottom of `strategies.py`,
as an enumeration (the registry stores them by key). -/
inductive RegisteredStrategy where
  | blackScholes
  | jumpMc
  | coxRossRubinstein
  | jarrowRudd
  | trinomialTree
  | adaptativeTrinomialTree
deriving DecidableEq, Repr

/-- The contents of `StrategyRegistry._strategies` after the six
module-level `register` calls, in registration order. -/
def StrategyRegistry.strategies : List (String × RegisteredStrategy) :=
  [("black_scholes", .blackScholes),
   ("jump_mc", .jumpMc),
   ("cox ross Rubinstein", .coxRossRubinstein),
   ("jarrow Rudd", .jarrowRudd),
   ("trinomial tree", .trinomialTree),
   ("adaptative trinomial tree", .adaptativeTrinomialTree)]

/-- `StrategyRegistry.get`: a bare `cls._strategies[name]` dict lookup;
a missing key surfaces as Python's built-in `KeyError`. -/
def StrategyRegistry.get (reg : List (String × RegisteredStrategy))
    (name : String) : Except PyError RegisteredStrategy :=
  match reg.lookup name with
  | some strategy => .ok strategy
  | none => .error (.keyError name)

/-- `StrategyRegistry._default_key`. -/
def StrategyRegistry.default_key : String := "black_scholes"

/-- `StrategyRegistry.default_strategy`: same bare dict lookup at the
default key. -/
def StrategyRegistry.default_strategy
    (reg : List (String × RegisteredStrategy)) :
    Except PyError RegisteredStrategy :=
  StrategyRegistry.get reg StrategyRegistry.default_key

example :
    StrategyRegistry.get StrategyRegistry.strategies "jump_mc" =
      .ok .jumpMc := by decide

/-- A computable stand-in for `math.exp` satisfying the analytic facts
the theorems assume: everywhere positive, strictly monotone, value `1`
at `0`. -/
def qexp (x : ℚ) : ℚ := if x < 0 then 1 / (1 - x) else 1 + x

/-- Function bundle whose `exp` is `qexp`. -/
def mathQ : MathFns := ⟨qexp, fun _ => 0, fun _ => 0, fun _ => 0, 0⟩

/-- Per-path draw streams that are all zero. -/
def pdZ : ℕ → ℕ → StepDraws := fun _ => zeroDraws

/-- Model state produced by `init mathOne 100 0 0 ⟨0,0,0⟩ 1 4`. -/
def mdl1 : MertonJumpModel := ⟨100, 0, 0, ⟨0, 0, 0⟩, 4, 1/4, 0⟩

/-- Model state produced by `init mathQ 1 0 0 ⟨0,0,0⟩ 1 1`. -/
def mdl2 : MertonJumpModel := ⟨1, 0, 0, ⟨0, 0, 0⟩, 1, 1, 0⟩

/-- Model state the jump-diffusion MC strategy builds for a maturity-one
option under `mathOne` (steps `max 10 (int 12) = 12`). -/
def mdl10 : MertonJumpModel := ⟨100, 0, 0, ⟨3/4, -(3/5), 1/4⟩, 12, 1/12, 0⟩

/-- Model state produced by `init mathQ 1 0 0 ⟨0,-1,0⟩ 1 1`: zero jump
intensity, negative mean jump. -/
def mdl9 : MertonJumpModel := ⟨1, 0, 0, ⟨0, -1, 0⟩, 1, 1, 0⟩

/-- Model state produced by `init mathQ 1 0 0 ⟨1,-1,0⟩ 1 1`: unit jump
intensity, negative mean jump; `drift_correction = qexp (-1) - 1`. -/
def mdl9b : MertonJumpModel := ⟨1, 0, 0, ⟨1, -1, 0⟩, 1, 1, -(1/2)⟩

/-- A degenerate option input: zero maturity, in the money. -/
def optDeg : OptionData := ⟨105, 100, 0, 0, 1/5, none⟩

/-- A maturity-one at-the-money option input. -/
def optAtm : OptionData := ⟨100, 100, 1, 0, 0, none⟩

/-- The path loop never writes a model field: the model component of the
`(self, price)` state is invariant under any number of iterations. -/
theorem runSteps_fst (F : MathFns) (pd : ℕ → StepDraws) (n : ℕ)
    (s : MertonJumpModel × ℚ) : (runSteps F pd n s).1 = s.1 := by
  induction n with
  | zero => rfl
  | succ n ih => simp [runSteps, stepOnce, ih]

/-- Inversion for a successful `__init__`: the guards all failed to fire
and the resulting object is exactly the fully-initialised record. -/
theorem init_ok_inv {F : MathFns} {sp r v : ℚ} {jp : JumpParameters}
    {mat : ℚ} {st : ℤ} {m : MertonJumpModel}
    (hm : MertonJumpModel.init F sp r v jp mat st = .ok m) :
    0 < mat ∧ 0 ≤ sp ∧ 0 ≤ r ∧ 0 ≤ v ∧ 0 < st ∧
      m = ⟨sp, r, v, jp, st.toNat, mat / (st : ℚ),
        jp.intensity * (F.exp (jp.mean_jump + 1/2 * jp.jump_vol ^ 2) - 1)⟩ := by
  unfold MertonJumpModel.init at hm
  split_ifs at hm with h1 h2 h3 h4 h5 h6
  cases hm
  refine ⟨by linarith [not_le.mp h1], not_lt.mp h2, not_lt.mp h3, not_lt.mp h4,
    by omega, rfl⟩

/-- Accumulating `(total, count)` over a list yields its sum and length. -/
theorem foldl_total_count (l : List ℚ) (a : ℚ) (c : ℕ) :
    l.foldl (fun acc payoff => (acc.1 + payoff, acc.2 + 1)) (a, c) =
      (a + l.sum, c + l.length) := by
  induction l generalizing a c with
  | nil => simp
  | cons x xs ih =>
    simp only [List.foldl_cons, ih, List.sum_cons, List.length_cons]
    refine Prod.ext ?_ ?_
    · simp; ring
    · simp; omega

/-- Draining a counter-driven generator: with `fuel` pulls from position
`k` of `N`, the elements are `g` applied to the consecutive indices and
the counter advances to `min (k + fuel) N`. -/
theorem drain_counter (nextFn : GenState → Option (ℚ × GenState)) (g : ℕ → ℚ)
    (hn : ∀ s : GenState, nextFn s =
      if s.idx < s.total then some (g s.idx, ⟨s.idx + 1, s.total⟩) else none) :
    ∀ (fuel k N : ℕ), k ≤ N →
      drain nextFn fuel ⟨k, N⟩ =
        ((List.range' k (min fuel (N - k))).map g, ⟨min (k + fuel) N, N⟩) := by
  intro fuel
  induction fuel with
  | zero =>
    intro k N hk
    simp [drain, Nat.min_eq_left hk]
  | succ fuel ih =>
    intro k N hk
    rw [drain, hn ⟨k, N⟩]
    by_cases hkN : k < N
    · simp only [hkN, if_pos]
      rw [ih (k + 1) N (by omega)]
      have h1 : min (fuel + 1) (N - k) = (min fuel (N - (k + 1))) + 1 := by omega
      have h2 : min (k + (fuel + 1)) N = min ((k + 1) + fuel) N := by omega
      rw [h1, h2, List.range'_succ]
      simp
    · have hkeq : k = N := by omega
      subst hkeq
      simp [hkN, drain]

/-- `terminal_price_stream` is counter-driven with element function
`simulate_terminal_price` on the pull index. -/
theorem tps_next_shape (F : MathFns) (m : MertonJumpModel)
    (pd : ℕ → ℕ → StepDraws) (s : GenState) :
    terminal_price_stream_next F m pd s =
      if s.idx < s.total then
        some (simulate_terminal_price F m (pd s.idx), ⟨s.idx + 1, s.total⟩)
      else none := rfl

/-- `payoff_stream` is counter-driven with the payoff of the freshly
simulated terminal price as element function. -/
theorem payoff_next_shape (F : MathFns) (m : MertonJumpModel)
    (pd : ℕ → ℕ → StepDraws) (strike : ℚ) (s : GenState) :
    payoff_stream_next F m pd strike s =
      if s.idx < s.total then
        some (max (simulate_terminal_price F m (pd s.idx) - strike) 0,
          ⟨s.idx + 1, s.total⟩)
      else none := by
  unfold payoff_stream_next terminal_price_stream_next
  by_cases h : s.idx < s.total <;> simp [h]

/-- Specialisation of `drain_counter` to the terminal-price generator. -/
theorem drain_tps (F : MathFns) (m : MertonJumpModel) (pd : ℕ → ℕ → StepDraws)
    (fuel k N : ℕ) (hk : k ≤ N) :
    drain (terminal_price_stream_next F m pd) fuel ⟨k, N⟩ =
      ((List.range' k (min fuel (N - k))).map
        (fun i => simulate_terminal_price F m (pd i)), ⟨min (k + fuel) N, N⟩) :=
  drain_counter _ _ (tps_next_shape F m pd) fuel k N hk

/-- Specialisation of `drain_counter` to the payoff generator. -/
theorem drain_payoff (F : MathFns) (m : MertonJumpModel) (pd : ℕ → ℕ → StepDraws)
    (strike : ℚ) (fuel k N : ℕ) (hk : k ≤ N) :
    drain (payoff_stream_next F m pd strike) fuel ⟨k, N⟩ =
      ((List.range' k (min fuel (N - k))).map
        (fun i => max (simulate_terminal_price F m (pd i) - strike) 0),
       ⟨min (k + fuel) N, N⟩) :=
  drain_counter _ _ (payoff_next_shape F m pd strike) fuel k N hk

/-- `qexp` is everywhere strictly positive. -/
theorem qexp_pos (x : ℚ) : 0 < qexp x := by
  unfold qexp
  split_ifs with h
  · have h1 : 0 < 1 - x := by linarith
    positivity
  · have h1 : 0 ≤ x := not_lt.mp h
    linarith

/-- `qexp 0 = 1`. -/
theorem qexp_zero : qexp 0 = 1 := by norm_num [qexp]

/-- `qexp` is strictly monotone. -/
theorem qexp_strictMono : StrictMono qexp := by
  intro a b hab
  unfold qexp
  split_ifs with ha hb hb
  · have h1 : 0 < 1 - b := by linarith
    have h2 : 1 - b < 1 - a := by linarith
    exact one_div_lt_one_div_of_lt h1 h2
  · have h1 : 1 < 1 - a := by linarith
    have h2 : 1 / (1 - a) < 1 := by
      rw [div_lt_one (by linarith)]
      exact h1
    have h3 : 0 ≤ b := not_lt.mp hb
    linarith
  · have h0 : 0 ≤ a := not_lt.mp ha
    linarith
  · linarith

/-- With `exp` constantly `1`, the working price never changes. -/
theorem runSteps_exp_one (F : MathFns) (pd : ℕ → StepDraws)
    (hF : ∀ x, F.exp x = 1) (n : ℕ) (s : MertonJumpModel × ℚ) :
    (runSteps F pd n s).2 = s.2 := by
  induction n with
  | zero => rfl
  | succ n ih => simp [runSteps, stepOnce, hF, ih]

/-- With `exp` constantly `1`, every simulated terminal price is `spot`. -/
theorem simulate_exp_one (F : MathFns) (m : MertonJumpModel)
    (pd : ℕ → StepDraws) (hF : ∀ x, F.exp x = 1) :
    simulate_terminal_price F m pd = m.spot :=
  runSteps_exp_one F pd hF m.steps (m, m.spot)

/-- With `exp` constantly `1`, pricing at the money yields zero. -/
theorem price_paths_atm_zero (F : MathFns) (m : MertonJumpModel) (N : ℕ)
    (pd : ℕ → ℕ → StepDraws) (hF : ∀ x, F.exp x = 1) :
    price_paths F m N m.spot pd = 0 := by
  unfold price_paths
  rw [drain_payoff F m pd m.spot N 0 N (Nat.zero_le N)]
  have hfun : (fun i => max (simulate_terminal_price F m (pd i) - m.spot) 0) =
      fun _ : ℕ => (0 : ℚ) := by
    funext i
    rw [simulate_exp_one F m (pd i) hF]
    simp
  dsimp only
  rw [hfun, List.map_const', foldl_total_count, List.sum_replicate]
  simp

/-- C1: for every model constructed with maturity > 0 and steps ≥ 1 and
every path count N ≥ 1, `price_paths(N, strike)` returns
`exp(-rate * maturity)` times the sum of the N payoffs divided by N,
where payoff number i is `max(terminal_price - strike, 0)` for the
terminal price simulated from path i's own draws. -/
theorem price_paths_discounted_average
    (F : MathFns) (sp r v : ℚ) (jp : JumpParameters) (mat : ℚ) (st : ℤ)
    (m : MertonJumpModel) (N : ℕ) (strike : ℚ) (pd : ℕ → ℕ → StepDraws)
    (hmat : 0 < mat) (hst : 1 ≤ st) (hN : 1 ≤ N)
    (hm : MertonJumpModel.init F sp r v jp mat st = .ok m) :
    price_paths F m N strike pd =
      F.exp (-(r * mat)) *
        ((List.range N).map
          (fun i => max (simulate_terminal_price F m (pd i) - strike) 0)).sum /
        (N : ℚ) := by
  obtain ⟨h1, h2, h3, h4, h5, hmeq⟩ := init_ok_inv hm
  have h0 : (0 : ℤ) ≤ st := by omega
  have hrate : m.rate = r := by rw [hmeq]
  have hdt : m.delta_t = mat / (st : ℚ) := by rw [hmeq]
  have hsteps : (m.steps : ℚ) = (st : ℚ) := by
    rw [hmeq]
    exact_mod_cast Int.toNat_of_nonneg h0
  have hstne : (st : ℚ) ≠ 0 := by
    have hpos : (0 : ℤ) < st := by omega
    exact_mod_cast hpos.ne.symm
  have hdrain := drain_payoff F m pd strike N 0 N (Nat.zero_le N)
  have hmin : min N (N - 0) = N := by omega
  rw [hmin, ← List.range_eq_range'] at hdrain
  unfold price_paths
  rw [hdrain]
  dsimp only
  rw [foldl_total_count]
  dsimp only
  rw [List.length_map, List.length_range]
  have harg : -(m.rate) * (m.steps : ℚ) * m.delta_t = -(r * mat) := by
    rw [hrate, hsteps, hdt]
    field_simp
    ring
  rw [harg]
  have hmax : max (0 + N) 1 = N := by omega
  rw [hmax, zero_add]

/-- C1 witness: the theorem applied to a concrete model (spot 100, zero
rate and volatility, maturity 1, 4 steps) with 2 paths at strike 50. -/
theorem price_paths_discounted_average_witness :
    price_paths mathOne mdl1 2 50 pdZ =
      mathOne.exp (-(0 * 1)) *
        ((List.range 2).map
          (fun i => max (simulate_terminal_price mathOne mdl1 (pdZ i) - 50) 0)).sum /
        (2 : ℚ) :=
  price_paths_discounted_average mathOne 100 0 0 ⟨0, 0, 0⟩ 1 4 mdl1 2 50 pdZ
    (by norm_num) (by norm_num) (by norm_num)
    (by norm_num [MertonJumpModel.init, mathOne, mdl1] <;> decide)

/-- C2: for every parameter set valid per the construction contract,
`simulate_terminal_price()` returns a strictly positive value and the
working price is strictly positive after each of the `steps` iterations
(given that the real `exp` is everywhere positive). -/
theorem simulate_terminal_price_positive
    (F : MathFns) (sp r v : ℚ) (jp : JumpParameters) (mat : ℚ) (st : ℤ)
    (m : MertonJumpModel) (pd : ℕ → StepDraws)
    (hsp : 0 < sp) (hr : 0 ≤ r) (hv : 0 ≤ v)
    (hli : 0 ≤ jp.intensity) (hjv : 0 ≤ jp.jump_vol)
    (hmat : 0 < mat) (hst : 1 ≤ st)
    (hexp : ∀ x, 0 < F.exp x)
    (hm : MertonJumpModel.init F sp r v jp mat st = .ok m) :
    (∀ k, k ≤ m.steps → 0 < (runSteps F pd k (m, m.spot)).2) ∧
      0 < simulate_terminal_price F m pd := by
  have hspot : m.spot = sp := by
    obtain ⟨_, _, _, _, _, hmeq⟩ := init_ok_inv hm
    rw [hmeq]
  have key : ∀ k, 0 < (runSteps F pd k (m, m.spot)).2 := by
    intro k
    induction k with
    | zero => simpa [runSteps, hspot] using hsp
    | succ k ih =>
      simp only [runSteps, stepOnce]
      exact mul_pos ih (hexp _)
  exact ⟨fun k _ => key k, key m.steps⟩

/-- C2 witness: the theorem applied to `mathQ` (whose `exp` is provably
positive) and a concrete valid parameter set. -/
theorem simulate_terminal_price_positive_witness :
    0 < simulate_terminal_price mathQ mdl2 zeroDraws :=
  (simulate_terminal_price_positive mathQ 1 0 0 ⟨0, 0, 0⟩ 1 1 mdl2 zeroDraws
    (by norm_num) (by norm_num) (by norm_num) (by norm_num) (by norm_num)
    (by norm_num) (by norm_num) (fun x => qexp_pos x)
    (by norm_num [MertonJumpModel.init, mathQ, mdl2])).2

/-- C3 counterexample: calling the estimator with path count 0 on a
concrete model does not raise; it returns the number `0`, because
`max(count, 1)` silently turns the empty average into `0 / 1`. -/
theorem price_paths_zero_paths_counterexample :
    price_paths mathOne mdl1 0 100 pdZ = 0 := by
  simp [price_paths, drain]

/-- C3 amended: for every model, strike and draw stream, `price_paths`
with path count 0 returns `0.0` instead of raising a configuration
error (the body contains no raise; `max(count, 1)` prevents the division
by zero). -/
theorem price_paths_zero_paths (F : MathFns) (m : MertonJumpModel)
    (strike : ℚ) (pd : ℕ → ℕ → StepDraws) :
    price_paths F m 0 strike pd = 0 := by
  simp [price_paths, drain]

/-- C4 counterexample: construction succeeds (returns a model, raises
nothing) on an invalid input per the claim: `spot = 0` together with
`intensity = -1`. -/
theorem init_accepts_zero_spot_negative_intensity :
    MertonJumpModel.init mathOne 0 0 0 ⟨-1, 0, 0⟩ 1 1 =
      .ok ⟨0, 0, 0, ⟨-1, 0, 0⟩, 1, 1, 0⟩ := by
  norm_num [MertonJumpModel.init, mathOne] <;> decide

/-- C4 amended: `__init__` raises a configuration error, eagerly at
construction time, exactly when `maturity ≤ 0`, `spot < 0`, `rate < 0`,
`volatility < 0` or `steps ≤ 0`; it never validates `intensity`,
`meanJump` or `jumpVol`, and accepts `spot = 0`.  When no error is
raised the returned model is fully initialised. -/
theorem init_raises_iff (F : MathFns) (sp r v : ℚ) (jp : JumpParameters)
    (mat : ℚ) (st : ℤ) :
    (∃ e, MertonJumpModel.init F sp r v jp mat st = .error e) ↔
      (mat ≤ 0 ∨ sp < 0 ∨ r < 0 ∨ v < 0 ∨ st ≤ 0) := by
  unfold MertonJumpModel.init
  split_ifs with hh1 hh2 hh3 hh4 hh5 hh6
  · exact iff_of_true ⟨_, rfl⟩ (Or.inl hh1)
  · exact iff_of_true ⟨_, rfl⟩ (Or.inr (Or.inl hh2))
  · exact iff_of_true ⟨_, rfl⟩ (Or.inr (Or.inr (Or.inl hh3)))
  · exact iff_of_true ⟨_, rfl⟩ (Or.inr (Or.inr (Or.inr (Or.inl hh4))))
  · exact iff_of_true ⟨_, rfl⟩ (Or.inr (Or.inr (Or.inr (Or.inr hh5))))
  · have hmatpos : 0 < mat := not_le.mp hh1
    have hstpos : (0 : ℚ) < (st : ℚ) := by exact_mod_cast not_le.mp hh5
    exact absurd hh6 (not_lt.mpr (le_of_lt (div_pos hmatpos hstpos)))
  · refine iff_of_false ?_ ?_
    · rintro ⟨e, he⟩
      cases he
    · push_neg
      exact ⟨not_le.mp hh1, not_lt.mp hh2, not_lt.mp hh3, not_lt.mp hh4,
        not_le.mp hh5⟩

/-- C5: for every N ≥ 0, the terminal-price generator and the payoff
generator of requested length N yield exactly N elements when drained
with any fuel ≥ N, and from the state left by the full drain every
further iteration yields zero elements. -/
theorem streams_yield_exactly_N_then_exhaust
    (F : MathFns) (m : MertonJumpModel) (pd : ℕ → ℕ → StepDraws)
    (strike : ℚ) (N fuel : ℕ) (hfuel : N ≤ fuel) :
    ((drain (terminal_price_stream_next F m pd) fuel ⟨0, N⟩).1.length = N ∧
      ∀ fuel2, (drain (terminal_price_stream_next F m pd) fuel2
        ((drain (terminal_price_stream_next F m pd) fuel ⟨0, N⟩).2)).1 = []) ∧
    ((drain (payoff_stream_next F m pd strike) fuel ⟨0, N⟩).1.length = N ∧
      ∀ fuel2, (drain (payoff_stream_next F m pd strike) fuel2
        ((drain (payoff_stream_next F m pd strike) fuel ⟨0, N⟩).2)).1 = []) := by
  have hmin1 : min fuel (N - 0) = N := by omega
  have hmin2 : min (0 + fuel) N = N := by omega
  have ht := drain_tps F m pd fuel 0 N (Nat.zero_le N)
  rw [hmin1, hmin2] at ht
  have hp := drain_payoff F m pd strike fuel 0 N (Nat.zero_le N)
  rw [hmin1, hmin2] at hp
  refine ⟨⟨?_, ?_⟩, ?_, ?_⟩
  · rw [ht]
    simp [List.length_range']
  · intro fuel2
    rw [ht]
    have ht2 := drain_tps F m pd fuel2 N N (le_refl N)
    simp at ht2
    simp [ht2]
  · rw [hp]
    simp [List.length_range']
  · intro fuel2
    rw [hp]
    have hp2 := drain_payoff F m pd strike fuel2 N N (le_refl N)
    simp at hp2
    simp [hp2]

/-- C5 witness: the theorem applied with N = 3, fuel = 5 and a second
iteration of 7 pulls after exhaustion. -/
theorem streams_yield_exactly_N_then_exhaust_witness :
    (drain (terminal_price_stream_next mathOne mdl2 pdZ) 5 ⟨0, 3⟩).1.length = 3 ∧
    (drain (terminal_price_stream_next mathOne mdl2 pdZ) 7
      ((drain (terminal_price_stream_next mathOne mdl2 pdZ) 5 ⟨0, 3⟩).2)).1 = [] ∧
    (drain (payoff_stream_next mathOne mdl2 pdZ 100) 5 ⟨0, 3⟩).1.length = 3 ∧
    (drain (payoff_stream_next mathOne mdl2 pdZ 100) 7
      ((drain (payoff_stream_next mathOne mdl2 pdZ 100) 5 ⟨0, 3⟩).2)).1 = [] := by
  obtain ⟨⟨h1, h2⟩, h3, h4⟩ :=
    streams_yield_exactly_N_then_exhaust mathOne mdl2 pdZ 100 3 5 (by norm_num)
  exact ⟨h1, h2 7, h3, h4 7⟩

/-- C6 counterexample: at the degenerate input maturity 0, spot 105,
strike 100 the price is 5 and delta is 1, but the greeks dict does not
assign 0 to `gamma` (or the other Greeks): the key is absent. -/
theorem black_scholes_degenerate_gamma_missing :
    (black_scholes_strategy mathOne optDeg).price = 5 ∧
    (black_scholes_strategy mathOne optDeg).greeks.lookup "delta" = some 1 ∧
    (black_scholes_strategy mathOne optDeg).greeks.lookup "gamma" = none := by
  have hres : black_scholes_strategy mathOne optDeg = ⟨5, [("delta", 1)]⟩ := by
    norm_num [black_scholes_strategy, optDeg, max_def]
  rw [hres]
  refine ⟨rfl, ?_, ?_⟩ <;> rfl

/-- C6 amended: whenever maturity ≤ 0 or volatility ≤ 0, the closed-form
pricer returns the intrinsic value `max(spot - strike, 0)` and a greeks
mapping holding only `delta` (1 if spot > strike else 0); gamma, vega,
theta and rho are absent from the mapping rather than zero. -/
theorem black_scholes_degenerate_branch (F : MathFns) (o : OptionData)
    (h : o.maturity ≤ 0 ∨ o.volatility ≤ 0) :
    black_scholes_strategy F o =
      ⟨max (o.spot - o.strike) 0,
        [("delta", if o.strike < o.spot then 1 else 0)]⟩ := by
  simp only [black_scholes_strategy]
  rw [if_pos h]

/-- C6 witness: the amended theorem applied at maturity 0, spot 105,
strike 100 gives price 5 and delta 1. -/
theorem black_scholes_degenerate_branch_witness :
    black_scholes_strategy mathQ optDeg = ⟨5, [("delta", 1)]⟩ := by
  have h := black_scholes_degenerate_branch mathQ optDeg
    (Or.inl (by norm_num [optDeg]))
  rw [h]
  norm_num [optDeg, max_def]

/-- C7 counterexample: `get` on a key absent from the populated registry
fails with the built-in `KeyError`, which is not one of the typed domain
exceptions of `exceptions.py` (no `UnknownStrategy` type exists). -/
theorem get_unknown_key_raises_untyped_keyError :
    StrategyRegistry.get StrategyRegistry.strategies "heston" =
      .error (.keyError "heston") ∧
    (PyError.keyError "heston").isDomainError = false := by
  constructor
  · rfl
  · rfl

/-- C7 amended: for every registry contents and every key not present,
`get` fails by raising the untyped built-in `KeyError` carrying the key          
(there is no `UnknownStrategy` exception anywhere in the codebase). -/
theorem get_absent_key_keyError (reg : List (String × RegisteredStrategy))
    (name : String) (h : reg.lookup name = none) :
    StrategyRegistry.get reg name = .error (.keyError name) := by
  unfold StrategyRegistry.get
  rw [h]

/-- C7 witness: the amended theorem applied to the populated registry and
an absent key. -/
theorem get_absent_key_keyError_witness :
    StrategyRegistry.get StrategyRegistry.strategies "kou model" =
      .error (.keyError "kou model") :=
  get_absent_key_keyError StrategyRegistry.strategies "kou model" (by decide)

/-- C8: a `simulate_terminal_price()` run leaves every field of the model
(spot, rate, volatility, jump_params, steps, delta_t, drift_correction)
unchanged: only the local working price component of the state evolves. -/
theorem simulate_leaves_model_unchanged (F : MathFns) (m : MertonJumpModel)
    (pd : ℕ → StepDraws) :
    (simulate_terminal_price_state F m pd).1.spot = m.spot ∧
    (simulate_terminal_price_state F m pd).1.rate = m.rate ∧
    (simulate_terminal_price_state F m pd).1.volatility = m.volatility ∧
    (simulate_terminal_price_state F m pd).1.jump_params = m.jump_params ∧
    (simulate_terminal_price_state F m pd).1.steps = m.steps ∧
    (simulate_terminal_price_state F m pd).1.delta_t = m.delta_t ∧
    (simulate_terminal_price_state F m pd).1.drift_correction =
      m.drift_correction := by
  have h : (simulate_terminal_price_state F m pd).1 = m := by
    unfold simulate_terminal_price_state
    exact runSteps_fst F pd m.steps (m, m.spot)
  rw [h]
  exact ⟨rfl, rfl, rfl, rfl, rfl, rfl, rfl⟩

/-- C9 counterexample: a model constructed with intensity 0, meanJump -1,
jumpVol 0 satisfies every hypothesis of the claim (meanJump < 0 and
meanJump + jumpVol²/2 < 0, under a strictly monotone exp with exp 0 = 1),
yet its cached `drift_correction` is 0, not strictly negative. -/
theorem drift_correction_not_negative_at_zero_intensity :
    StrictMono mathQ.exp ∧ mathQ.exp 0 = 1 ∧
    MertonJumpModel.init mathQ 1 0 0 ⟨0, -1, 0⟩ 1 1 = .ok mdl9 ∧
    mdl9.jump_params.mean_jump < 0 ∧
    mdl9.jump_params.mean_jump + 1/2 * mdl9.jump_params.jump_vol ^ 2 < 0 ∧
    ¬ mdl9.drift_correction < 0 := by
  refine ⟨qexp_strictMono, qexp_zero, ?_, by norm_num [mdl9], by norm_num [mdl9],
    by norm_num [mdl9]⟩
  norm_num [MertonJumpModel.init, mathQ, mdl9] <;> decide

/-- C9 amended: for every constructed model with meanJump < 0,
meanJump + jumpVol²/2 < 0 and, additionally, intensity > 0, the cached
`drift_correction = intensity * (exp(meanJump + jumpVol²/2) - 1)` is
strictly negative (with exp strictly monotone and exp 0 = 1). -/
theorem drift_correction_negative
    (F : MathFns) (sp r v : ℚ) (jp : JumpParameters) (mat : ℚ) (st : ℤ)
    (m : MertonJumpModel)
    (hSM : StrictMono F.exp) (hE0 : F.exp 0 = 1)
    (hm : MertonJumpModel.init F sp r v jp mat st = .ok m)
    (hmean : jp.mean_jump < 0)
    (hsmall : jp.mean_jump + 1/2 * jp.jump_vol ^ 2 < 0)
    (hint : 0 < jp.intensity) :
    m.drift_correction < 0 := by
  obtain ⟨_, _, _, _, _, hmeq⟩ := init_ok_inv hm
  have hlt : F.exp (jp.mean_jump + 1/2 * jp.jump_vol ^ 2) < 1 := by
    have := hSM hsmall
    rw [hE0] at this
    exact this
  rw [hmeq]
  show jp.intensity * (F.exp (jp.mean_jump + 1/2 * jp.jump_vol ^ 2) - 1) < 0
  exact mul_neg_of_pos_of_neg hint (by linarith)

/-- C9 witness: the amended theorem applied to intensity 1, meanJump -1,
jumpVol 0 under `qexp`, where the drift correction evaluates to -1/2. -/
theorem drift_correction_negative_witness : mdl9b.drift_correction < 0 :=
  drift_correction_negative mathQ 1 0 0 ⟨1, -1, 0⟩ 1 1 mdl9b
    qexp_strictMono qexp_zero
    (by norm_num [MertonJumpModel.init, mathQ, mdl9b, qexp] <;> decide)
    (by norm_num) (by norm_num) (by norm_num)

/-- C10: whenever the jump-diffusion Monte Carlo strategy returns a
result, the greeks mapping of that result assigns 0.0 to all five of
delta, gamma, vega, theta and rho, regardless of the option's
parameters: the strategy computes no Greeks. -/
theorem jump_mc_greeks_all_zero
    (F : MathFns) (o : OptionData) (pd : ℕ → ℕ → StepDraws)
    (res : StrategyResult)
    (h : jump_diffusion_mc_strategy F o pd = .ok res) :
    res.greeks.lookup "delta" = some 0 ∧
    res.greeks.lookup "gamma" = some 0 ∧
    res.greeks.lookup "vega" = some 0 ∧
    res.greeks.lookup "theta" = some 0 ∧
    res.greeks.lookup "rho" = some 0 := by
  unfold jump_diffusion_mc_strategy at h
  dsimp only at h
  cases hinit : MertonJumpModel.init F o.spot o.rate o.volatility
      ⟨3/4, -(3/5), 1/4⟩ o.maturity (max 10 (pyInt (o.maturity * 12))) with
  | error e =>
    rw [hinit] at h
    simp at h
  | ok model =>
    rw [hinit] at h
    dsimp only at h
    have hres := Except.ok.inj h
    rw [← hres]
    exact ⟨rfl, rfl, rfl, rfl, rfl⟩

/-- C10 witness: applying the theorem to a concrete successful run (an
at-the-money maturity-one option under the trivial bundle). -/
theorem jump_mc_greeks_all_zero_witness :
    (⟨0, [("delta", 0), ("gamma", 0), ("vega", 0), ("theta", 0), ("rho", 0)]⟩ :
        StrategyResult).greeks.lookup "delta" = some 0 ∧
    (⟨0, [("delta", 0), ("gamma", 0), ("vega", 0), ("theta", 0), ("rho", 0)]⟩ :
        StrategyResult).greeks.lookup "gamma" = some 0 ∧
    (⟨0, [("delta", 0), ("gamma", 0), ("vega", 0), ("theta", 0), ("rho", 0)]⟩ :
        StrategyResult).greeks.lookup "vega" = some 0 ∧
    (⟨0, [("delta", 0), ("gamma", 0), ("vega", 0), ("theta", 0), ("rho", 0)]⟩ :
        StrategyResult).greeks.lookup "theta" = some 0 ∧
    (⟨0, [("delta", 0), ("gamma", 0), ("vega", 0), ("theta", 0), ("rho", 0)]⟩ :
        StrategyResult).greeks.lookup "rho" = some 0 := by
  have hinit : MertonJumpModel.init mathOne optAtm.spot optAtm.rate
      optAtm.volatility ⟨3/4, -(3/5), 1/4⟩ optAtm.maturity
      (max 10 (pyInt (optAtm.maturity * 12))) = .ok mdl10 := by
    norm_num [MertonJumpModel.init, mathOne, optAtm, pyInt, mdl10, max_def]
    decide
  have hpp : price_paths mathOne mdl10 200 optAtm.strike pdZ = 0 := by
    have h0 := price_paths_atm_zero mathOne mdl10 200 pdZ (fun x => rfl)
    simpa [mdl10, optAtm] using h0
  have heq : jump_diffusion_mc_strategy mathOne optAtm pdZ =
      .ok ⟨0, [("delta", 0), ("gamma", 0), ("vega", 0), ("theta", 0), ("rho", 0)]⟩ := by
    unfold jump_diffusion_mc_strategy
    dsimp only
    rw [hinit]
    dsimp only
    rw [hpp]
  exact jump_mc_greeks_all_zero mathOne optAtm pdZ _ heq
